import Mathlib

/-
Shallow embedding of the simulation core of auto-stock-backtest2:
the Portfolio ledger and BacktestEngine of src/backtest_engine.py and
the walk-forward optimizer of src/wfo_optimizer.py.

Modelling conventions:
* Python floats are modelled as rationals (exact arithmetic).
* datetime values are modelled as integer day numbers, so that
  (d2 - d1).days is d2 - d1.
* Python dicts keyed by symbol are association lists that keep insertion
  order, matching dict iteration order; dict item assignment updates the
  entry in place, deletion filters it out, a fresh key is appended.
* float('-inf') is the bottom element of WithBot Rat.
* Python int() applied to a nonnegative quotient is the floor; int_of
  below implements truncation toward zero as int() does in general.
-/

namespace AutoStock

/- Position record: the per-symbol dict stored in Portfolio.positions
   (backtest_engine.py, add_position). -/
structure Position where
  quantity : ℤ
  price : ℚ
  entry_date : ℤ
  strategy : String
  entry_reason : String
deriving Repr, DecidableEq

/- Trade dataclass (backtest_engine.py). trade_type is always SELL at the
   only construction sites, so it is omitted. -/
structure Trade where
  symbol : String
  entry_date : ℤ
  exit_date : ℤ
  entry_price : ℚ
  exit_price : ℚ
  quantity : ℤ
  strategy : String
  entry_reason : String
  exit_reason : String
  profit_loss : ℚ
  profit_loss_pct : ℚ
  holding_days : ℤ
deriving Repr, DecidableEq

/- Portfolio state (backtest_engine.py, Portfolio.__init__). The dates
   list is seeded with datetime.now(), modelled as an arbitrary integer
   seed passed to freshPortfolio. -/
structure Portfolio where
  initial_capital : ℚ
  cash : ℚ
  positions : List (String × Position)
  trades : List Trade
  equity_curve : List ℚ
  dates : List ℤ
deriving Repr, DecidableEq

def freshPortfolio (initial_capital : ℚ) (now : ℤ) : Portfolio :=
  { initial_capital := initial_capital
    cash := initial_capital
    positions := []
    trades := []
    equity_curve := [initial_capital]
    dates := [now] }

/- Dict lookup: `symbol in self.positions` / `self.positions[symbol]`. -/
def lookupPos : List (String × Position) → String → Option Position
  | [], _ => none
  | q :: l, sym => if q.1 = sym then some q.2 else lookupPos l sym

/- Dict item mutation in place (pos['quantity'] = ..): the entry keeps
   its place in iteration order. -/
def setPos : List (String × Position) → String → Position → List (String × Position)
  | [], _, _ => []
  | q :: l, sym, p => (if q.1 = sym then (sym, p) else q) :: setPos l sym p

/- `del self.positions[symbol]`. -/
def removePos : List (String × Position) → String → List (String × Position)
  | [], _ => []
  | q :: l, sym => if q.1 = sym then removePos l sym else q :: removePos l sym

/- Portfolio.add_position (backtest_engine.py lines 53-73). -/
def addPosition (pf : Portfolio) (symbol : String) (quantity : ℤ) (price : ℚ)
    (date : ℤ) (strategy : String) (reason : String) : Portfolio :=
  let positions :=
    match lookupPos pf.positions symbol with
    | some pos =>
        let total_quantity := pos.quantity + quantity
        let avg_price := ((pos.quantity : ℚ) * pos.price + (quantity : ℚ) * price) /
          (total_quantity : ℚ)
        setPos pf.positions symbol { pos with quantity := total_quantity, price := avg_price }
    | none =>
        pf.positions ++ [(symbol,
          { quantity := quantity, price := price, entry_date := date,
            strategy := strategy, entry_reason := reason })]
  { pf with positions := positions, cash := pf.cash - (quantity : ℚ) * price }

/- Portfolio.close_position (backtest_engine.py lines 75-125). -/
def closePosition (pf : Portfolio) (symbol : String) (quantity : ℤ) (price : ℚ)
    (date : ℤ) (reason : String) : Portfolio × Option Trade :=
  match lookupPos pf.positions symbol with
  | none => (pf, none)
  | some pos =>
    if pos.quantity ≤ quantity then
      let trade : Trade :=
        { symbol := symbol
          entry_date := pos.entry_date
          exit_date := date
          entry_price := pos.price
          exit_price := price
          quantity := pos.quantity
          strategy := pos.strategy
          entry_reason := pos.entry_reason
          exit_reason := reason
          profit_loss := (price - pos.price) * (pos.quantity : ℚ)
          profit_loss_pct := (price - pos.price) / pos.price
          holding_days := date - pos.entry_date }
      ({ pf with cash := pf.cash + (pos.quantity : ℚ) * price,
                 positions := removePos pf.positions symbol,
                 trades := pf.trades ++ [trade] }, some trade)
    else
      let trade : Trade :=
        { symbol := symbol
          entry_date := pos.entry_date
          exit_date := date
          entry_price := pos.price
          exit_price := price
          quantity := quantity
          strategy := pos.strategy
          entry_reason := pos.entry_reason
          exit_reason := reason
          profit_loss := (price - pos.price) * (quantity : ℚ)
          profit_loss_pct := (price - pos.price) / pos.price
          holding_days := date - pos.entry_date }
      ({ pf with cash := pf.cash + (quantity : ℚ) * price,
                 positions := setPos pf.positions symbol
                   { pos with quantity := pos.quantity - quantity },
                 trades := pf.trades ++ [trade] }, some trade)

/- Portfolio.get_total_value (backtest_engine.py lines 127-133). -/
def priceLookup : List (String × ℚ) → String → Option ℚ
  | [], _ => none
  | q :: l, sym => if q.1 = sym then some q.2 else priceLookup l sym

def getTotalValue (pf : Portfolio) (current_prices : List (String × ℚ)) : ℚ :=
  pf.positions.foldl
    (fun total q =>
      match priceLookup current_prices q.1 with
      | some pr => total + (q.2.quantity : ℚ) * pr
      | none => total)
    pf.cash

/- Portfolio.update_equity_curve (backtest_engine.py lines 135-139). -/
def updateEquityCurve (pf : Portfolio) (current_prices : List (String × ℚ))
    (date : ℤ) : Portfolio :=
  { pf with equity_curve := pf.equity_curve ++ [getTotalValue pf current_prices],
            dates := pf.dates ++ [date] }

/- A sequence of ledger mutations with no mark-to-market: the only two
   cash-moving operations of the Portfolio class. -/
inductive LedgerOp where
  | open_or_add (symbol : String) (quantity : ℤ) (price : ℚ) (date : ℤ)
      (strategy : String) (reason : String)
  | close (symbol : String) (quantity : ℤ) (price : ℚ) (date : ℤ) (reason : String)
deriving Repr, DecidableEq

def applyOp (pf : Portfolio) : LedgerOp → Portfolio
  | .open_or_add s q pr d st r => addPosition pf s q pr d st r
  | .close s q pr d r => (closePosition pf s q pr d r).1

def runOps (pf : Portfolio) : List LedgerOp → Portfolio
  | [] => pf
  | op :: ops => runOps (applyOp pf op) ops

/- Cash debited by an open (qty x price); a close debits nothing. -/
def openDebit : LedgerOp → ℚ
  | .open_or_add _ q pr _ _ _ => (q : ℚ) * pr
  | .close _ _ _ _ _ => 0

def openDebits (ops : List LedgerOp) : ℚ :=
  (ops.map openDebit).sum

/- Cash credited by a close in state pf: the held quantity x price on a
   clamped full close, the requested quantity x price on a partial close,
   nothing when no position is open; an open credits nothing. -/
def closeCredit (pf : Portfolio) : LedgerOp → ℚ
  | .open_or_add _ _ _ _ _ _ => 0
  | .close s q pr _ _ =>
    match lookupPos pf.positions s with
    | none => 0
    | some pos => if pos.quantity ≤ q then (pos.quantity : ℚ) * pr else (q : ℚ) * pr

def closeCredits (pf : Portfolio) : List LedgerOp → ℚ
  | [] => 0
  | op :: ops => closeCredit pf op + closeCredits (applyOp pf op) ops

lemma addPosition_cash (pf : Portfolio) (s : String) (q : ℤ) (pr : ℚ) (d : ℤ)
    (st r : String) : (addPosition pf s q pr d st r).cash = pf.cash - (q : ℚ) * pr := rfl

lemma closePosition_cash (pf : Portfolio) (s : String) (q : ℤ) (pr : ℚ) (d : ℤ)
    (r : String) :
    (closePosition pf s q pr d r).1.cash =
      pf.cash + closeCredit pf (.close s q pr d r) := by
  unfold closePosition
  cases h : lookupPos pf.positions s with
  | none => simp [closeCredit, h]
  | some pos =>
    by_cases hq : pos.quantity ≤ q <;> simp [closeCredit, h, hq]

lemma applyOp_cash (pf : Portfolio) (op : LedgerOp) :
    (applyOp pf op).cash = pf.cash - openDebit op + closeCredit pf op := by
  cases op with
  | open_or_add s q pr d st r =>
      simp [applyOp, addPosition_cash, openDebit, closeCredit]
  | close s q pr d r =>
      simp [applyOp, closePosition_cash, openDebit]

lemma runOps_cash (ops : List LedgerOp) (pf : Portfolio) :
    (runOps pf ops).cash = pf.cash - openDebits ops + closeCredits pf ops := by
  induction ops generalizing pf with
  | nil => simp [runOps, openDebits, closeCredits]
  | cons op ops ih =>
      simp only [runOps, closeCredits]
      rw [ih, applyOp_cash]
      simp [openDebits]
      ring

/-- Claim C1 (cash conservation): for every sequence of open_or_add and
close calls with no mark-to-market, starting from a fresh portfolio, the
final cash equals initial_capital minus the sum over all opens of
qty x price plus the sum over all closes of the actually-closed
quantity x price (the held quantity on a clamped full close, the
requested quantity on a partial close, nothing when no position exists). -/
theorem cash_conservation (initial_capital : ℚ) (now : ℤ) (ops : List LedgerOp) :
    (runOps (freshPortfolio initial_capital now) ops).cash =
      initial_capital - openDebits ops +
        closeCredits (freshPortfolio initial_capital now) ops := by
  rw [runOps_cash]
  rfl

lemma lookupPos_append_self (l : List (String × Position)) (s : String)
    (p : Position) (h : lookupPos l s = none) :
    lookupPos (l ++ [(s, p)]) s = some p := by
  induction l with
  | nil => simp [lookupPos]
  | cons a l ih =>
    by_cases ha : a.1 = s
    · simp [lookupPos, ha] at h
    · rw [List.cons_append, lookupPos, if_neg ha]
      rw [lookupPos, if_neg ha] at h
      exact ih h

lemma lookupPos_setPos_self (l : List (String × Position)) (s : String)
    (pos p : Position) (h : lookupPos l s = some pos) :
    lookupPos (setPos l s p) s = some p := by
  induction l with
  | nil => simp [lookupPos] at h
  | cons a l ih =>
    by_cases ha : a.1 = s
    · simp [setPos, lookupPos, ha]
    · rw [setPos, if_neg ha, lookupPos, if_neg ha]
      rw [lookupPos, if_neg ha] at h
      exact ih h

lemma lookupPos_removePos (l : List (String × Position)) (s : String) :
    lookupPos (removePos l s) s = none := by
  induction l with
  | nil => rfl
  | cons a l ih =>
    by_cases ha : a.1 = s
    · rw [removePos, if_pos ha]; exact ih
    · rw [removePos, if_neg ha, lookupPos, if_neg ha]; exact ih

lemma addPosition_positions_of_none (pf : Portfolio) (s : String) (q : ℤ)
    (pr : ℚ) (d : ℤ) (st r : String) (h : lookupPos pf.positions s = none) :
    (addPosition pf s q pr d st r).positions =
      pf.positions ++ [(s, ⟨q, pr, d, st, r⟩)] := by
  simp only [addPosition, h]

lemma addPosition_positions_of_some (pf : Portfolio) (s : String) (q : ℤ)
    (pr : ℚ) (d : ℤ) (st r : String) (pos : Position)
    (h : lookupPos pf.positions s = some pos) :
    (addPosition pf s q pr d st r).positions =
      setPos pf.positions s
        { pos with quantity := pos.quantity + q,
                   price := ((pos.quantity : ℚ) * pos.price + (q : ℚ) * pr) /
                     ((pos.quantity + q : ℤ) : ℚ) } := by
  simp only [addPosition, h]

/-- Claim C2 (full-close clamping): when the requested quantity is at
least the held quantity, close_position removes the position from the
map, credits cash by held quantity x price (not the requested quantity),
and appends and returns a Trade whose quantity is the held quantity and
whose entry_price is the stored average price; requesting more than held
is not an error (a Trade is still returned). -/
theorem full_close_clamps (pf : Portfolio) (s : String) (pos : Position)
    (q : ℤ) (pr : ℚ) (d : ℤ) (r : String)
    (hpos : lookupPos pf.positions s = some pos) (hq : pos.quantity ≤ q) :
    lookupPos (closePosition pf s q pr d r).1.positions s = none ∧
    (closePosition pf s q pr d r).1.cash = pf.cash + (pos.quantity : ℚ) * pr ∧
    (closePosition pf s q pr d r).1.trades = pf.trades ++
      [{ symbol := s, entry_date := pos.entry_date, exit_date := d,
         entry_price := pos.price, exit_price := pr, quantity := pos.quantity,
         strategy := pos.strategy, entry_reason := pos.entry_reason,
         exit_reason := r, profit_loss := (pr - pos.price) * (pos.quantity : ℚ),
         profit_loss_pct := (pr - pos.price) / pos.price,
         holding_days := d - pos.entry_date }] ∧
    (closePosition pf s q pr d r).2 = some
      { symbol := s, entry_date := pos.entry_date, exit_date := d,
        entry_price := pos.price, exit_price := pr, quantity := pos.quantity,
        strategy := pos.strategy, entry_reason := pos.entry_reason,
        exit_reason := r, profit_loss := (pr - pos.price) * (pos.quantity : ℚ),
        profit_loss_pct := (pr - pos.price) / pos.price,
        holding_days := d - pos.entry_date } := by
  simp only [closePosition, hpos, if_pos hq, and_true, true_and]
  exact lookupPos_removePos pf.positions s

def pfC2 : Portfolio :=
  { initial_capital := 100000, cash := 94000,
    positions := [("A", ⟨120, 50, 0, "swing_trading", "entry_conditions_met"⟩)],
    trades := [], equity_curve := [100000], dates := [0] }

theorem full_close_clamps_witness :
    lookupPos (closePosition pfC2 "A" 150 60 10 "r").1.positions "A" = none ∧
    (closePosition pfC2 "A" 150 60 10 "r").1.cash = 94000 + 120 * 60 := by
  have h := full_close_clamps pfC2 "A" ⟨120, 50, 0, "swing_trading", "entry_conditions_met"⟩
    150 60 10 "r" rfl (by decide)
  exact ⟨h.1, by rw [h.2.1]; norm_num [pfC2]⟩

/-- Claim C3 (partial close): when the requested quantity is strictly
less than the held quantity, close_position decrements the position's
quantity in place leaving its average price unchanged, credits cash by
requested quantity x price, and appends and returns a Trade for exactly
the closed quantity with profit_loss = (exit - avg) x qty and
profit_loss_pct = (exit - avg) / avg, the per-unit return independent of
qty. -/
theorem partial_close (pf : Portfolio) (s : String) (pos : Position)
    (q : ℤ) (pr : ℚ) (d : ℤ) (r : String)
    (hpos : lookupPos pf.positions s = some pos) (hq : q < pos.quantity) :
    lookupPos (closePosition pf s q pr d r).1.positions s =
      some { pos with quantity := pos.quantity - q } ∧
    (closePosition pf s q pr d r).1.cash = pf.cash + (q : ℚ) * pr ∧
    (closePosition pf s q pr d r).1.trades = pf.trades ++
      [{ symbol := s, entry_date := pos.entry_date, exit_date := d,
         entry_price := pos.price, exit_price := pr, quantity := q,
         strategy := pos.strategy, entry_reason := pos.entry_reason,
         exit_reason := r, profit_loss := (pr - pos.price) * (q : ℚ),
         profit_loss_pct := (pr - pos.price) / pos.price,
         holding_days := d - pos.entry_date }] ∧
    (closePosition pf s q pr d r).2 = some
      { symbol := s, entry_date := pos.entry_date, exit_date := d,
        entry_price := pos.price, exit_price := pr, quantity := q,
        strategy := pos.strategy, entry_reason := pos.entry_reason,
        exit_reason := r, profit_loss := (pr - pos.price) * (q : ℚ),
        profit_loss_pct := (pr - pos.price) / pos.price,
        holding_days := d - pos.entry_date } := by
  have hq' : ¬ pos.quantity ≤ q := not_le.mpr hq
  simp only [closePosition, hpos, if_neg hq', and_true, true_and]
  exact lookupPos_setPos_self pf.positions s pos _ hpos

/- The spec's running example for C3: open 200 shares at 50, then close
   80 of them at 60 on day 5. -/
def pfC3 : Portfolio :=
  addPosition (freshPortfolio 100000 0) "A" 200 50 0 "swing_trading" "entry_conditions_met"

theorem partial_close_witness :
    lookupPos (closePosition pfC3 "A" 80 60 5 "partial_profit").1.positions "A" =
      some ⟨120, 50, 0, "swing_trading", "entry_conditions_met"⟩ ∧
    (closePosition pfC3 "A" 80 60 5 "partial_profit").2 = some
      { symbol := "A", entry_date := 0, exit_date := 5, entry_price := 50,
        exit_price := 60, quantity := 80, strategy := "swing_trading",
        entry_reason := "entry_conditions_met", exit_reason := "partial_profit",
        profit_loss := 800, profit_loss_pct := 1/5, holding_days := 5 } := by
  have h := partial_close pfC3 "A" ⟨200, 50, 0, "swing_trading", "entry_conditions_met"⟩
    80 60 5 "partial_profit" rfl (by decide)
  refine ⟨?_, ?_⟩
  · rw [h.1]; norm_num
  · rw [h.2.2.2]; norm_num

/-- Claim C4 (weighted-average invariant): starting from a portfolio with
no open position for sym, add_position(sym, q1, p1) followed by
add_position(sym, q2, p2) leaves a position for sym with quantity
q1 + q2 and average price (q1 p1 + q2 p2) / (q1 + q2), for positive
quantities and prices. -/
theorem weighted_average (pf : Portfolio) (s : String) (q1 q2 : ℤ) (p1 p2 : ℚ)
    (d1 d2 : ℤ) (st1 st2 r1 r2 : String)
    (h : lookupPos pf.positions s = none)
    (hq1 : 0 < q1) (hq2 : 0 < q2) (hp1 : 0 < p1) (hp2 : 0 < p2) :
    lookupPos (addPosition (addPosition pf s q1 p1 d1 st1 r1) s q2 p2 d2 st2 r2).positions s =
      some { quantity := q1 + q2,
             price := ((q1 : ℚ) * p1 + (q2 : ℚ) * p2) / ((q1 : ℚ) + (q2 : ℚ)),
             entry_date := d1, strategy := st1, entry_reason := r1 } := by
  have h1 : lookupPos (addPosition pf s q1 p1 d1 st1 r1).positions s =
      some ⟨q1, p1, d1, st1, r1⟩ := by
    rw [addPosition_positions_of_none pf s q1 p1 d1 st1 r1 h]
    exact lookupPos_append_self pf.positions s _ h
  rw [addPosition_positions_of_some _ s q2 p2 d2 st2 r2 _ h1]
  have h2 := lookupPos_setPos_self (addPosition pf s q1 p1 d1 st1 r1).positions s
    ⟨q1, p1, d1, st1, r1⟩
    { quantity := q1 + q2,
      price := (((q1 : ℤ) : ℚ) * p1 + (q2 : ℚ) * p2) / ((q1 + q2 : ℤ) : ℚ),
      entry_date := d1, strategy := st1, entry_reason := r1 } h1
  rw [h2]
  congr 1
  push_cast
  rfl

theorem weighted_average_witness :
    lookupPos (addPosition (addPosition (freshPortfolio 100000 0) "A" 100 20 0 "s" "r")
        "A" 300 40 1 "s" "r2").positions "A" =
      some { quantity := 400, price := (100 * 20 + 300 * 40) / (100 + 300),
             entry_date := 0, strategy := "s", entry_reason := "r" } := by
  have h := weighted_average (freshPortfolio 100000 0) "A" 100 300 20 40 0 1 "s" "s" "r" "r2"
    (by decide) (by decide) (by decide) (by norm_num) (by norm_num)
  rw [h]
  norm_num

lemma getTotalValue_nil (pf : Portfolio) : getTotalValue pf [] = pf.cash := by
  have key : ∀ (l : List (String × Position)) (c : ℚ),
      l.foldl (fun total q =>
        match priceLookup [] q.1 with
        | some pr => total + (q.2.quantity : ℚ) * pr
        | none => total) c = c := by
    intro l
    induction l with
    | nil => intro c; rfl
    | cons a l ih =>
      intro c
      rw [List.foldl_cons]
      exact ih c
  exact key pf.positions pf.cash

/- Python int() truncates toward zero; all quotients it is applied to in
   _calculate_position_size are floors when nonnegative. -/
def int_of (q : ℚ) : ℤ := if 0 ≤ q then ⌊q⌋ else ⌈q⌉

/- BacktestEngine._calculate_position_size (backtest_engine.py lines
   739-757): risk budget and position cap are computed from
   get_total_value({}), the cash-only valuation. -/
def calculatePositionSize (pf : Portfolio) (price : ℚ)
    (risk_per_trade max_position_size : ℚ) : ℤ :=
  let risk_amount := getTotalValue pf [] * risk_per_trade
  let max_position_value := getTotalValue pf [] * max_position_size
  let available_cash := pf.cash
  let max_quantity_by_risk := int_of (risk_amount / price)
  let max_quantity_by_position := int_of (max_position_value / price)
  let max_quantity_by_cash := int_of (available_cash / price)
  let quantity := min max_quantity_by_risk (min max_quantity_by_position max_quantity_by_cash)
  max 0 quantity

/- The three candidate quantities of _calculate_position_size, exposed
   for the sizing-example claim. -/
def candidateQuantities (pf : Portfolio) (price : ℚ)
    (risk_per_trade max_position_size : ℚ) : ℤ × ℤ × ℤ :=
  (int_of (getTotalValue pf [] * risk_per_trade / price),
   int_of (getTotalValue pf [] * max_position_size / price),
   int_of (pf.cash / price))

/-- Claim C5, counterexample: with cash 500,000, risk_per_trade 0.015,
max_position_size 0.25 and price 100, the code does not produce the
spec's candidate quantities (150, 2500, 5000) and does not choose 150:
get_total_value({}) is the cash-only valuation 500,000, not the
1,000,000 the spec example assumes. -/
theorem sizing_example_counterexample :
    ¬ (candidateQuantities (freshPortfolio 500000 0) 100 (15/1000) (1/4) =
        (150, 2500, 5000) ∧
       calculatePositionSize (freshPortfolio 500000 0) 100 (15/1000) (1/4) = 150) := by
  intro h
  have h1 := h.1
  rw [candidateQuantities, getTotalValue_nil] at h1
  norm_num [freshPortfolio, int_of] at h1

/-- Claim C5 as amended: with a cash-only portfolio of 500,000,
risk_per_trade 0.015, max_position_size 0.25 and price 100, the
position-size computation, whose total_value(empty) is the cash-only
valuation 500,000, produces the candidate quantities (75, 1250, 5000)
and chooses quantity 75. -/
theorem sizing_example_amended :
    getTotalValue (freshPortfolio 500000 0) [] = 500000 ∧
    candidateQuantities (freshPortfolio 500000 0) 100 (15/1000) (1/4) =
      (75, 1250, 5000) ∧
    calculatePositionSize (freshPortfolio 500000 0) 100 (15/1000) (1/4) = 75 := by
  refine ⟨by rw [getTotalValue_nil]; rfl, ?_, ?_⟩
  · rw [candidateQuantities, getTotalValue_nil]
    norm_num [freshPortfolio, int_of]
  · rw [calculatePositionSize, getTotalValue_nil]
    norm_num [freshPortfolio, int_of]

/-- Claim C8, counterexample: add_position with qty = -5 (≤ 0) does not
fail: it mutates the portfolio, increasing cash by 50 and creating a
position with negative quantity. -/
theorem add_position_no_check_counterexample :
    (addPosition (freshPortfolio 1000 0) "A" (-5) 10 0 "s" "r").cash = 1050 ∧
    addPosition (freshPortfolio 1000 0) "A" (-5) 10 0 "s" "r" ≠
      freshPortfolio 1000 0 := by
  constructor
  · norm_num [addPosition, freshPortfolio]
  · intro hcontra
    have h := congrArg Portfolio.cash hcontra
    norm_num [addPosition, freshPortfolio] at h

/-- Claim C8 as amended: add_position performs no precondition check:
also when qty ≤ 0 or price ≤ 0 it mutates the portfolio, decreasing
cash by qty x price (an increase when qty x price < 0) and recording the
position unconditionally; it returns no value (the mutated portfolio is
the whole result). -/
theorem add_position_no_check (pf : Portfolio) (s : String) (q : ℤ) (pr : ℚ)
    (d : ℤ) (st r : String) (hq : q ≤ 0 ∨ pr ≤ 0) :
    (addPosition pf s q pr d st r).cash = pf.cash - (q : ℚ) * pr ∧
    (lookupPos pf.positions s = none →
      (addPosition pf s q pr d st r).positions =
        pf.positions ++ [(s, ⟨q, pr, d, st, r⟩)]) := by
  exact ⟨rfl, fun h => addPosition_positions_of_none pf s q pr d st r h⟩

theorem add_position_no_check_witness :
    (addPosition (freshPortfolio 1000 0) "A" (-5) 10 0 "s" "r").cash =
      1000 - (-5 : ℤ) * 10 := by
  have h := add_position_no_check (freshPortfolio 1000 0) "A" (-5) 10 0 "s" "r"
    (Or.inl (by norm_num))
  rw [h.1]
  norm_num [freshPortfolio]

/- Backtest result fields consumed by WFOptimizer._calculate_optimization_score
   (wfo_optimizer.py lines 231-252). -/
structure BTResult where
  sharpe_ratio : ℚ
  total_return : ℚ
  max_drawdown : ℚ
  win_rate : ℚ
  total_trades : ℕ
deriving Repr, DecidableEq

/- WFOptimizer._calculate_optimization_score: float('-inf') is the
   bottom element of WithBot Rat. -/
def calculateOptimizationScore (results : BTResult) : WithBot ℚ :=
  if results.total_trades < 10 then ⊥
  else ((results.sharpe_ratio * (4/10) + results.total_return * (3/10) +
    (1 - |results.max_drawdown|) * (2/10) + results.win_rate * (1/10) : ℚ) : WithBot ℚ)

/- A parameter combination: one dict from _generate_param_combinations. -/
abbrev ParamCombo := List (String × ℚ)

/- One iteration of the best-score loop in _optimize_parameters
   (wfo_optimizer.py lines 143-172). run abstracts
   _run_backtest_with_params: none models an exception or an "error"
   result, which the loop skips. -/
def optimizeStep (run : ParamCombo → Option BTResult)
    (best : Option ParamCombo × WithBot ℚ) (params : ParamCombo) :
    Option ParamCombo × WithBot ℚ :=
  match run params with
  | none => best
  | some results =>
    let score := calculateOptimizationScore results
    if best.2 < score then (some params, score) else best

/- WFOptimizer._optimize_parameters: best_params starts None,
   best_score starts float('-inf'); returns best_params. -/
def optimizeParameters (run : ParamCombo → Option BTResult)
    (param_combinations : List ParamCombo) : Option ParamCombo :=
  (param_combinations.foldl (optimizeStep run) (none, ⊥)).1

lemma score_bot_of_few_trades (results : BTResult)
    (h : results.total_trades < 10) : calculateOptimizationScore results = ⊥ := by
  unfold calculateOptimizationScore
  rw [if_pos h]

lemma optimize_fold_inv (run : ParamCombo → Option BTResult)
    (combos : List ParamCombo) (st : Option ParamCombo × WithBot ℚ)
    (h : ∀ p, st.1 = some p → ∃ results, run p = some results ∧ 10 ≤ results.total_trades) :
    ∀ p, (combos.foldl (optimizeStep run) st).1 = some p →
      ∃ results, run p = some results ∧ 10 ≤ results.total_trades := by
  induction combos generalizing st with
  | nil => exact h
  | cons c cs ih =>
    rw [List.foldl_cons]
    apply ih
    intro p hp
    unfold optimizeStep at hp
    cases hrun : run c with
    | none => rw [hrun] at hp; exact h p hp
    | some results =>
      rw [hrun] at hp
      dsimp only at hp
      by_cases hlt : st.2 < calculateOptimizationScore results
      · rw [if_pos hlt] at hp
        have hscore : calculateOptimizationScore results ≠ ⊥ := by
          intro hbot
          rw [hbot] at hlt
          exact absurd hlt (by simp)
        have htr : 10 ≤ results.total_trades := by
          by_contra hnot
          exact hscore (score_bot_of_few_trades results (by omega))
        have hpc : p = c := by
          have := hp
          simp only [Option.some.injEq] at this
          exact this.symm
        subst hpc
        exact ⟨results, hrun, htr⟩
      · rw [if_neg hlt] at hp
        exact h p hp

lemma optimize_fold_none (run : ParamCombo → Option BTResult)
    (combos : List ParamCombo)
    (h : ∀ p ∈ combos, ∀ results, run p = some results → results.total_trades < 10) :
    combos.foldl (optimizeStep run) (none, ⊥) = (none, ⊥) := by
  induction combos with
  | nil => rfl
  | cons c cs ih =>
    rw [List.foldl_cons]
    have hstep : optimizeStep run (none, ⊥) c = (none, ⊥) := by
      unfold optimizeStep
      cases hrun : run c with
      | none => rfl
      | some results =>
        have htr := h c (List.mem_cons_self c cs) results hrun
        dsimp only
        rw [score_bot_of_few_trades results htr]
        simp
    rw [hstep]
    exact ih (fun p hp results hr => h p (List.mem_cons_of_mem c hp) results hr)

/-- Claim C6 (statistical-significance guard): a result with fewer than
10 trades scores bottom (float('-inf')); any combination returned by
_optimize_parameters ran successfully with at least 10 trades, so a
guard-rejected combination is never the arg-max; and when every
combination errors or is guard-rejected, _optimize_parameters returns
None. -/
theorem statistical_guard (run : ParamCombo → Option BTResult)
    (combos : List ParamCombo) :
    (∀ results : BTResult, results.total_trades < 10 →
      calculateOptimizationScore results = ⊥) ∧
    (∀ p, optimizeParameters run combos = some p →
      ∃ results, run p = some results ∧ 10 ≤ results.total_trades) ∧
    ((∀ p ∈ combos, ∀ results, run p = some results → results.total_trades < 10) →
      optimizeParameters run combos = none) := by
  refine ⟨score_bot_of_few_trades, ?_, ?_⟩
  · intro p hp
    exact optimize_fold_inv run combos (none, ⊥) (by simp) p hp
  · intro hall
    unfold optimizeParameters
    rw [optimize_fold_none run combos hall]

theorem statistical_guard_witness :
    optimizeParameters (fun _ => some ⟨1, 1, 0, 1, 5⟩) [[("x", 1)]] = none := by
  apply (statistical_guard (fun _ => some ⟨1, 1, 0, 1, 5⟩) [[("x", 1)]]).2.2
  intro p hp results hr
  have : results = ⟨1, 1, 0, 1, 5⟩ := by
    simpa using hr.symm
  rw [this]
  norm_num

/- WFOPeriod as (train_start, train_end, test_start, test_end), all
   integer day numbers. -/
abbrev WFOPeriod := ℤ × ℤ × ℤ × ℤ

/- WFOptimizer._split_periods (wfo_optimizer.py lines 120-141). The
   while loop is driven by fuel; each iteration advances current_start
   by step_size and requires current_start + train + test ≤ end, so for
   step_size ≥ 1 a fuel of (end - start) + 1 never binds. -/
def splitPeriodsAux (train_period test_period step_size end_dt : ℤ) :
    ℕ → ℤ → List WFOPeriod
  | 0, _ => []
  | fuel+1, current_start =>
    if current_start + (train_period + test_period) ≤ end_dt then
      (current_start, current_start + (train_period - 1),
       current_start + train_period,
       current_start + train_period + (test_period - 1)) ::
      splitPeriodsAux train_period test_period step_size end_dt fuel
        (current_start + step_size)
    else []

def splitPeriods (start_dt end_dt train_period test_period step_size : ℤ) :
    List WFOPeriod :=
  splitPeriodsAux train_period test_period step_size end_dt
    ((end_dt - start_dt).toNat + 1) start_dt

def shiftPeriod (d : ℤ) (w : WFOPeriod) : WFOPeriod :=
  (w.1 + d, w.2.1 + d, w.2.2.1 + d, w.2.2.2 + d)

lemma splitPeriodsAux_shift (tp te st e d : ℤ) (fuel : ℕ) (cur : ℤ) :
    splitPeriodsAux tp te st (e + d) fuel (cur + d) =
      (splitPeriodsAux tp te st e fuel cur).map (shiftPeriod d) := by
  induction fuel generalizing cur with
  | zero => rfl
  | succ n ih =>
    simp only [splitPeriodsAux]
    by_cases h : cur + (tp + te) ≤ e
    · rw [if_pos h, if_pos (by omega : cur + d + (tp + te) ≤ e + d)]
      rw [List.map_cons]
      congr 1
      · simp only [shiftPeriod, Prod.mk.injEq, true_and]
        omega
      · rw [show cur + d + st = cur + st + d by ring]
        exact ih (cur + st)
    · rw [if_neg h, if_neg (by omega : ¬ (cur + d + (tp + te) ≤ e + d))]
      rfl

/-- Claim C7 (WFO period count): for every start date, a 400-day span
with train 252, test 63, step 21 yields exactly
floor((400 - 252 - 63)/21) + 1 = 5 periods; each period starts 21 days
after the previous one and in every period test_start = train_end + 1. -/
theorem wfo_period_count (s : ℤ) :
    splitPeriods s (s + 400) 252 63 21 =
      [(s, s + 251, s + 252, s + 314), (s + 21, s + 272, s + 273, s + 335),
       (s + 42, s + 293, s + 294, s + 356), (s + 63, s + 314, s + 315, s + 377),
       (s + 84, s + 335, s + 336, s + 398)] ∧
    (splitPeriods s (s + 400) 252 63 21).length =
      ((400 - 252 - 63) / 21 + 1 : ℤ).toNat ∧
    (splitPeriods s (s + 400) 252 63 21).length = 5 ∧
    List.Chain' (fun w1 w2 => w2.1 = w1.1 + 21) (splitPeriods s (s + 400) 252 63 21) ∧
    (∀ w ∈ splitPeriods s (s + 400) 252 63 21, w.2.2.1 = w.2.1 + 1) := by
  have hbase : splitPeriodsAux 252 63 21 400 401 0 =
      [(0, 251, 252, 314), (21, 272, 273, 335), (42, 293, 294, 356),
       (63, 314, 315, 377), (84, 335, 336, 398)] := by decide
  have hshift : splitPeriodsAux 252 63 21 (s + 400) 401 s =
      (splitPeriodsAux 252 63 21 400 401 0).map (shiftPeriod s) := by
    have h := splitPeriodsAux_shift 252 63 21 400 s 401 0
    rw [show (400 : ℤ) + s = s + 400 by ring, show (0 : ℤ) + s = s by ring] at h
    exact h
  have hmain : splitPeriods s (s + 400) 252 63 21 =
      [(s, s + 251, s + 252, s + 314), (s + 21, s + 272, s + 273, s + 335),
       (s + 42, s + 293, s + 294, s + 356), (s + 63, s + 314, s + 315, s + 377),
       (s + 84, s + 335, s + 336, s + 398)] := by
    unfold splitPeriods
    rw [show ((s + 400) - s).toNat + 1 = 401 by omega]
    rw [hshift, hbase]
    simp only [List.map_cons, List.map_nil, shiftPeriod, List.cons.injEq,
      Prod.mk.injEq, and_true]
    omega
  refine ⟨hmain, ?_, ?_, ?_, ?_⟩
  · rw [hmain]; rfl
  · rw [hmain]; rfl
  · rw [hmain]
    simp only [List.chain'_cons, List.chain'_singleton, and_true, true_and]
    omega
  · rw [hmain]
    intro w hw
    simp only [List.mem_cons, List.not_mem_nil, or_false] at hw
    rcases hw with rfl | rfl | rfl | rfl | rfl <;> (dsimp only; omega)

theorem wfo_period_count_witness :
    ((0 : ℤ), (251 : ℤ), (252 : ℤ), (314 : ℤ)) ∈ splitPeriods 0 (0 + 400) 252 63 21 ∧
    (((0 : ℤ), (251 : ℤ), (252 : ℤ), (314 : ℤ)) : WFOPeriod).2.2.1 =
      (((0 : ℤ), (251 : ℤ), (252 : ℤ), (314 : ℤ)) : WFOPeriod).2.1 + 1 := by
  have hmem : ((0 : ℤ), (251 : ℤ), (252 : ℤ), (314 : ℤ)) ∈
      splitPeriods 0 (0 + 400) 252 63 21 := by
    rw [(wfo_period_count 0).1]
    simp
  exact ⟨hmem, (wfo_period_count 0).2.2.2.2 _ hmem⟩

/- The dict returned by indicators.check_exit_conditions; part_exit
   models the source dict key partial_exit. -/
structure ExitCond where
  exit : Bool
  reason : String
  part_exit : Bool

/- Engine configuration and the external collaborators of one run:
   present/close_price model date membership and Close of all_data
   (the PriceSeries provider); entry_signal models
   indicators.check_entry_conditions(data, strategy).loc[date];
   exit_signal models indicators.check_exit_conditions(data, strategy,
   entry_price, current_price). symbols is the key list of all_data in
   iteration order. -/
structure EngineCfg where
  strategy : String
  max_positions : ℕ
  risk_per_trade : ℚ
  max_position_size : ℚ
  max_holding_days : ℤ
  symbols : List String
  present : String → ℤ → Bool
  close_price : String → ℤ → ℚ
  entry_signal : String → ℤ → Bool
  exit_signal : String → ℚ → ℚ → ExitCond

/- current_prices built in _process_date (backtest_engine.py 644-651). -/
def currentPrices (cfg : EngineCfg) (date : ℤ) : List (String × ℚ) :=
  (cfg.symbols.filter (fun s => cfg.present s date)).map
    (fun s => (s, cfg.close_price s date))

/- One iteration of the loop in _check_exit_conditions
   (backtest_engine.py lines 694-737). -/
def exitStep (cfg : EngineCfg) (date : ℤ) (pf : Portfolio) (symbol : String) :
    Portfolio :=
  if cfg.symbols.contains symbol && cfg.present symbol date then
    match lookupPos pf.positions symbol with
    | none => pf
    | some pos =>
      let current_price := cfg.close_price symbol date
      let ec0 := cfg.exit_signal symbol pos.price current_price
      let holding_days := date - pos.entry_date
      let ec := if cfg.max_holding_days ≤ holding_days
        then { ec0 with exit := true, reason := "max_holding_days" } else ec0
      if ec.exit then
        (closePosition pf symbol pos.quantity current_price date ec.reason).1
      else if ec.part_exit && (cfg.strategy == "swing_trading") then
        let half_quantity := Int.fdiv pos.quantity 2
        if 0 < half_quantity then
          (closePosition pf symbol half_quantity current_price date "partial_profit").1
        else pf
      else pf
  else pf

/- _check_exit_conditions iterates over list(self.portfolio.positions.keys()),
   a snapshot of the open symbols. -/
def checkExitConditions (cfg : EngineCfg) (date : ℤ) (pf : Portfolio) : Portfolio :=
  (pf.positions.map Prod.fst).foldl (exitStep cfg date) pf

/- One iteration of the loop in _check_entry_conditions
   (backtest_engine.py lines 669-692). -/
def entryStep (cfg : EngineCfg) (date : ℤ) (pf : Portfolio) (symbol : String) :
    Portfolio :=
  match lookupPos pf.positions symbol with
  | some _ => pf
  | none =>
    if cfg.present symbol date then
      if cfg.entry_signal symbol date then
        let position_size := calculatePositionSize pf (cfg.close_price symbol date)
          cfg.risk_per_trade cfg.max_position_size
        if 0 < position_size then
          addPosition pf symbol position_size (cfg.close_price symbol date) date
            cfg.strategy "entry_conditions_met"
        else pf
      else pf
    else pf

/- _check_entry_conditions (backtest_engine.py lines 662-692): the
   max_positions cap is checked once, before the symbol loop. -/
def checkEntryConditions (cfg : EngineCfg) (date : ℤ) (pf : Portfolio) : Portfolio :=
  if cfg.max_positions ≤ pf.positions.length then pf
  else cfg.symbols.foldl (entryStep cfg date) pf

/- _process_date (backtest_engine.py lines 644-660): exits, then
   entries, then one equity-curve point. -/
def processDate (cfg : EngineCfg) (pf : Portfolio) (date : ℤ) : Portfolio :=
  updateEquityCurve
    (checkEntryConditions cfg date (checkExitConditions cfg date pf))
    (currentPrices cfg date) date

/- The date loop of _execute_backtest (backtest_engine.py lines
   276-280) over the sorted union of all dates. -/
def executeBacktest (cfg : EngineCfg) (pf : Portfolio) (all_dates : List ℤ) :
    Portfolio :=
  all_dates.foldl (processDate cfg) pf

lemma closePosition_fst_equity (pf : Portfolio) (s : String) (q : ℤ) (pr : ℚ)
    (d : ℤ) (r : String) :
    (closePosition pf s q pr d r).1.equity_curve = pf.equity_curve := by
  unfold closePosition
  cases h : lookupPos pf.positions s with
  | none => rfl
  | some pos => by_cases hq : pos.quantity ≤ q <;> simp [hq]

lemma closePosition_fst_dates (pf : Portfolio) (s : String) (q : ℤ) (pr : ℚ)
    (d : ℤ) (r : String) :
    (closePosition pf s q pr d r).1.dates = pf.dates := by
  unfold closePosition
  cases h : lookupPos pf.positions s with
  | none => rfl
  | some pos => by_cases hq : pos.quantity ≤ q <;> simp [hq]

lemma exitStep_equity (cfg : EngineCfg) (d : ℤ) (pf : Portfolio) (s : String) :
    (exitStep cfg d pf s).equity_curve = pf.equity_curve := by
  unfold exitStep
  split
  · cases h : lookupPos pf.positions s with
    | none => rfl
    | some pos =>
      dsimp only
      repeat' split
      all_goals first
        | rfl
        | apply closePosition_fst_equity
  · rfl

lemma exitStep_dates (cfg : EngineCfg) (d : ℤ) (pf : Portfolio) (s : String) :
    (exitStep cfg d pf s).dates = pf.dates := by
  unfold exitStep
  split
  · cases h : lookupPos pf.positions s with
    | none => rfl
    | some pos =>
      dsimp only
      repeat' split
      all_goals first
        | rfl
        | apply closePosition_fst_dates
  · rfl

lemma entryStep_equity (cfg : EngineCfg) (d : ℤ) (pf : Portfolio) (s : String) :
    (entryStep cfg d pf s).equity_curve = pf.equity_curve := by
  unfold entryStep
  cases h : lookupPos pf.positions s with
  | some pos => rfl
  | none =>
    dsimp only
    split
    · split
      · split
        · rfl
        · rfl
      · rfl
    · rfl

lemma entryStep_dates (cfg : EngineCfg) (d : ℤ) (pf : Portfolio) (s : String) :
    (entryStep cfg d pf s).dates = pf.dates := by
  unfold entryStep
  cases h : lookupPos pf.positions s with
  | some pos => rfl
  | none =>
    dsimp only
    split
    · split
      · split
        · rfl
        · rfl
      · rfl
    · rfl

lemma foldl_exitStep_equity (cfg : EngineCfg) (d : ℤ) :
    ∀ (syms : List String) (pf : Portfolio),
      ((syms.foldl (exitStep cfg d) pf)).equity_curve = pf.equity_curve := by
  intro syms
  induction syms with
  | nil => intro pf; rfl
  | cons a l ih =>
    intro pf
    rw [List.foldl_cons, ih (exitStep cfg d pf a), exitStep_equity]

lemma foldl_exitStep_dates (cfg : EngineCfg) (d : ℤ) :
    ∀ (syms : List String) (pf : Portfolio),
      ((syms.foldl (exitStep cfg d) pf)).dates = pf.dates := by
  intro syms
  induction syms with
  | nil => intro pf; rfl
  | cons a l ih =>
    intro pf
    rw [List.foldl_cons, ih (exitStep cfg d pf a), exitStep_dates]

lemma foldl_entryStep_equity (cfg : EngineCfg) (d : ℤ) :
    ∀ (syms : List String) (pf : Portfolio),
      ((syms.foldl (entryStep cfg d) pf)).equity_curve = pf.equity_curve := by
  intro syms
  induction syms with
  | nil => intro pf; rfl
  | cons a l ih =>
    intro pf
    rw [List.foldl_cons, ih (entryStep cfg d pf a), entryStep_equity]

lemma foldl_entryStep_dates (cfg : EngineCfg) (d : ℤ) :
    ∀ (syms : List String) (pf : Portfolio),
      ((syms.foldl (entryStep cfg d) pf)).dates = pf.dates := by
  intro syms
  induction syms with
  | nil => intro pf; rfl
  | cons a l ih =>
    intro pf
    rw [List.foldl_cons, ih (entryStep cfg d pf a), entryStep_dates]

lemma checkExitConditions_equity (cfg : EngineCfg) (d : ℤ) (pf : Portfolio) :
    (checkExitConditions cfg d pf).equity_curve = pf.equity_curve :=
  foldl_exitStep_equity cfg d (pf.positions.map Prod.fst) pf

lemma checkExitConditions_dates (cfg : EngineCfg) (d : ℤ) (pf : Portfolio) :
    (checkExitConditions cfg d pf).dates = pf.dates :=
  foldl_exitStep_dates cfg d (pf.positions.map Prod.fst) pf

lemma checkEntryConditions_equity (cfg : EngineCfg) (d : ℤ) (pf : Portfolio) :
    (checkEntryConditions cfg d pf).equity_curve = pf.equity_curve := by
  unfold checkEntryConditions
  split
  · rfl
  · exact foldl_entryStep_equity cfg d cfg.symbols pf

lemma checkEntryConditions_dates (cfg : EngineCfg) (d : ℤ) (pf : Portfolio) :
    (checkEntryConditions cfg d pf).dates = pf.dates := by
  unfold checkEntryConditions
  split
  · rfl
  · exact foldl_entryStep_dates cfg d cfg.symbols pf

/- The equity value appended by _process_date on one date: the total
   value, after that date's exit and entry passes, of the symbols priced
   that day. -/
def dayValue (cfg : EngineCfg) (pf : Portfolio) (date : ℤ) : ℚ :=
  getTotalValue (checkEntryConditions cfg date (checkExitConditions cfg date pf))
    (currentPrices cfg date)

lemma processDate_dates (cfg : EngineCfg) (pf : Portfolio) (d : ℤ) :
    (processDate cfg pf d).dates = pf.dates ++ [d] := by
  unfold processDate updateEquityCurve
  simp only [checkEntryConditions_dates, checkExitConditions_dates]

lemma processDate_equity (cfg : EngineCfg) (pf : Portfolio) (d : ℤ) :
    (processDate cfg pf d).equity_curve = pf.equity_curve ++ [dayValue cfg pf d] := by
  unfold processDate updateEquityCurve dayValue
  simp only [checkEntryConditions_equity, checkExitConditions_equity]

lemma executeBacktest_dates (cfg : EngineCfg) :
    ∀ (ds : List ℤ) (pf : Portfolio),
      (executeBacktest cfg pf ds).dates = pf.dates ++ ds := by
  intro ds
  induction ds with
  | nil => intro pf; simp [executeBacktest]
  | cons d ds ih =>
    intro pf
    unfold executeBacktest at ih ⊢
    rw [List.foldl_cons, ih (processDate cfg pf d), processDate_dates]
    simp

lemma executeBacktest_equity (cfg : EngineCfg) :
    ∀ (ds : List ℤ) (pf : Portfolio),
      (executeBacktest cfg pf ds).equity_curve =
        pf.equity_curve ++ (List.range ds.length).map
          (fun i => dayValue cfg (executeBacktest cfg pf (ds.take i)) (ds.getD i 0)) := by
  intro ds
  induction ds with
  | nil => intro pf; simp [executeBacktest]
  | cons d ds ih =>
    intro pf
    have hcons : executeBacktest cfg pf (d :: ds) =
        executeBacktest cfg (processDate cfg pf d) ds := rfl
    rw [hcons, ih (processDate cfg pf d), processDate_equity]
    rw [List.length_cons, List.range_succ_eq_map, List.map_cons, List.map_map]
    rw [List.append_assoc, List.singleton_append]
    have hmap : (List.range ds.length).map
        (fun i => dayValue cfg (executeBacktest cfg (processDate cfg pf d) (ds.take i))
          (ds.getD i 0)) =
      (List.range ds.length).map
        ((fun i => dayValue cfg (executeBacktest cfg pf ((d :: ds).take i))
          ((d :: ds).getD i 0)) ∘ Nat.succ) := by
      apply List.map_congr_left
      intro i hi
      simp only [Function.comp_apply, List.take_succ_cons, List.getD_cons_succ]
      rfl
    rw [hmap]
    rfl

lemma getTotalValue_eq_cash_add_sum (pf : Portfolio) (prices : List (String × ℚ)) :
    getTotalValue pf prices = pf.cash +
      (pf.positions.map (fun q =>
        match priceLookup prices q.1 with
        | some pr => (q.2.quantity : ℚ) * pr
        | none => 0)).sum := by
  unfold getTotalValue
  have key : ∀ (l : List (String × Position)) (c : ℚ),
      l.foldl (fun total q =>
        match priceLookup prices q.1 with
        | some pr => total + (q.2.quantity : ℚ) * pr
        | none => total) c =
      c + (l.map (fun q =>
        match priceLookup prices q.1 with
        | some pr => (q.2.quantity : ℚ) * pr
        | none => 0)).sum := by
    intro l
    induction l with
    | nil => intro c; simp
    | cons a l ih =>
      intro c
      rw [List.foldl_cons, List.map_cons, List.sum_cons, ih]
      cases hp : priceLookup prices a.1 with
      | none => simp [hp]
      | some pr =>
        simp only [hp]
        rw [add_assoc]
  exact key pf.positions pf.cash

/- A run configuration with no symbols, used to exhibit the seed date. -/
def cfg9 : EngineCfg :=
  { strategy := "swing_trading", max_positions := 0, risk_per_trade := 0,
    max_position_size := 0, max_holding_days := 30, symbols := [],
    present := fun _ _ => false, close_price := fun _ _ => 0,
    entry_signal := fun _ _ => false,
    exit_signal := fun _ _ _ => ⟨false, "", false⟩ }

/-- Claim C9, counterexample: the equity-curve date list is seeded with
the portfolio construction time (datetime.now()), which need not
precede the simulated dates: a run over simulated dates 1, 2 with seed
date 100 yields the date list [100, 1, 2], which is not non-decreasing. -/
theorem equity_curve_dates_counterexample :
    (executeBacktest cfg9 (freshPortfolio 1000 100) [1, 2]).dates = [100, 1, 2] ∧
    ¬ List.Chain' (fun a b => a ≤ b)
      ((executeBacktest cfg9 (freshPortfolio 1000 100) [1, 2]).dates) := by
  have hd : (executeBacktest cfg9 (freshPortfolio 1000 100) [1, 2]).dates =
      [100, 1, 2] := by
    rw [executeBacktest_dates]
    rfl
  refine ⟨hd, ?_⟩
  rw [hd]
  intro hchain
  have h1 := (List.chain'_cons.mp hchain).1
  omega

/-- Claim C9 as amended: after a backtest run from a fresh portfolio,
the date list is the seed date (the wall-clock construction time, which
need not precede the simulated dates) followed by the simulated dates
in timeline order; the equity curve has length 1 (seed) + number of
simulated dates, its head is the initial capital, and each appended
point is the total value after that date's exit and entry passes, where
total value is cash plus the sum of quantity x price over open
positions whose symbols are present in the supplied prices. -/
theorem equity_curve_shape (cfg : EngineCfg) (capital : ℚ) (d0 : ℤ)
    (all_dates : List ℤ) :
    (executeBacktest cfg (freshPortfolio capital d0) all_dates).dates =
      d0 :: all_dates ∧
    (executeBacktest cfg (freshPortfolio capital d0) all_dates).equity_curve.length =
      1 + all_dates.length ∧
    (executeBacktest cfg (freshPortfolio capital d0) all_dates).equity_curve =
      capital :: (List.range all_dates.length).map (fun i =>
        dayValue cfg (executeBacktest cfg (freshPortfolio capital d0) (all_dates.take i))
          (all_dates.getD i 0)) ∧
    (∀ (pf : Portfolio) (prices : List (String × ℚ)),
      getTotalValue pf prices = pf.cash +
        (pf.positions.map (fun q =>
          match priceLookup prices q.1 with
          | some pr => (q.2.quantity : ℚ) * pr
          | none => 0)).sum) := by
  refine ⟨?_, ?_, ?_, getTotalValue_eq_cash_add_sum⟩
  · rw [executeBacktest_dates]
    rfl
  · rw [executeBacktest_equity]
    simp [freshPortfolio]
    omega
  · rw [executeBacktest_equity]
    rfl

lemma setPos_length (l : List (String × Position)) (s : String) (p : Position) :
    (setPos l s p).length = l.length := by
  induction l with
  | nil => rfl
  | cons a l ih => simp [setPos, ih]

lemma addPosition_length_ge (pf : Portfolio) (s : String) (q : ℤ) (pr : ℚ)
    (d : ℤ) (st r : String) :
    pf.positions.length ≤ (addPosition pf s q pr d st r).positions.length := by
  unfold addPosition
  cases h : lookupPos pf.positions s with
  | some pos =>
    dsimp only
    rw [setPos_length]
  | none =>
    dsimp only
    simp

lemma entryStep_length_ge (cfg : EngineCfg) (d : ℤ) (pf : Portfolio) (s : String) :
    pf.positions.length ≤ (entryStep cfg d pf s).positions.length := by
  unfold entryStep
  cases h : lookupPos pf.positions s with
  | some pos => exact le_refl _
  | none =>
    dsimp only
    repeat' split
    all_goals first
      | exact le_refl _
      | apply addPosition_length_ge

lemma foldl_entryStep_length_ge (cfg : EngineCfg) (d : ℤ) :
    ∀ (syms : List String) (pf : Portfolio),
      pf.positions.length ≤ ((syms.foldl (entryStep cfg d) pf)).positions.length := by
  intro syms
  induction syms with
  | nil => intro pf; exact le_refl _
  | cons a l ih =>
    intro pf
    rw [List.foldl_cons]
    exact le_trans (entryStep_length_ge cfg d pf a) (ih (entryStep cfg d pf a))

/- A run configuration with two signalling symbols and max_positions 1:
   the cap check at the top of the entry pass sees zero open positions
   and both symbols then open. -/
def cfg10 : EngineCfg :=
  { strategy := "swing_trading", max_positions := 1, risk_per_trade := 2/100,
    max_position_size := 1/4, max_holding_days := 30, symbols := ["A", "B"],
    present := fun _ _ => true, close_price := fun _ _ => 100,
    entry_signal := fun _ _ => true,
    exit_signal := fun _ _ _ => ⟨false, "", false⟩ }

lemma cap_exceeded_concrete :
    (checkEntryConditions cfg10 0 (freshPortfolio 1000000 100)).positions.length = 2 := by
  have hAB : ¬ ("A" : String) = "B" := by decide
  norm_num [checkEntryConditions, cfg10, freshPortfolio, entryStep, lookupPos,
    calculatePositionSize, int_of, getTotalValue_nil, addPosition, min_def, max_def,
    List.foldl, hAB]

/-- Claim C10 (cap checked once per entry pass): when the open-position
count already meets max_positions the entry pass is a no-op; the entry
pass never reduces the open-position count; and when the count is below
max_positions at the start of the pass, every remaining signalling
symbol may open, so one pass can leave strictly more than max_positions
open positions (two open under max_positions = 1 in the exhibited run). -/
theorem max_positions_cap_once (cfg : EngineCfg) (date : ℤ) (pf : Portfolio) :
    (cfg.max_positions ≤ pf.positions.length →
      checkEntryConditions cfg date pf = pf) ∧
    pf.positions.length ≤ (checkEntryConditions cfg date pf).positions.length ∧
    ((freshPortfolio 1000000 100).positions.length < cfg10.max_positions ∧
      cfg10.max_positions = 1 ∧
      (checkEntryConditions cfg10 0 (freshPortfolio 1000000 100)).positions.length = 2) := by
  refine ⟨?_, ?_, ?_, rfl, cap_exceeded_concrete⟩
  · intro h
    unfold checkEntryConditions
    rw [if_pos h]
  · unfold checkEntryConditions
    split
    · exact le_refl _
    · exact foldl_entryStep_length_ge cfg date cfg.symbols pf
  · decide

theorem max_positions_cap_once_witness :
    checkEntryConditions cfg10 0 pfC2 = pfC2 := by
  apply (max_positions_cap_once cfg10 0 pfC2).1
  decide

end AutoStock
